import Mathlib

/-!
Formal model of `app/twitch_rec/follower_network.py`.

The Python `collections.Counter` is modelled as an association list in dict
insertion order; a Python `set` of uids is a `Finset String`; a falsy
followings reply (empty dict / fetch failure) is `Option.none`.
-/

/-- Occurrence count of `x` in a list of uids (how many times `Counter.update`
increments the entry for `x` from one reply). -/
def occs : List String → String → Nat
  | [], _ => 0
  | k :: ks, x => (if k = x then 1 else 0) + occs ks x

/-- Value stored under key `k` (0 when absent), as `Counter.__getitem__`. -/
def cnt : List (String × Nat) → String → Nat
  | [], _ => 0
  | (a, n) :: rest, k => if a = k then n else cnt rest k

/-- One increment of `Counter.update`: bump the existing entry in place, or
append a fresh entry with value 1 at the end (dict insertion order). -/
def counterIncr : List (String × Nat) → String → List (String × Nat)
  | [], k => [(k, 1)]
  | (a, n) :: rest, k =>
      if a = k then (a, n + 1) :: rest else (a, n) :: counterIncr rest k

/-- `Counter.update(ks)` for a list of uids `ks`. -/
def counterUpdate (c : List (String × Nat)) (ks : List String) : List (String × Nat) :=
  ks.foldl counterIncr c

/-- `Counter.pop(k, None)`: remove the entry with key `k`, if any. -/
def counterPop (c : List (String × Nat)) (k : String) : List (String × Nat) :=
  c.filter (fun q => decide (q.1 ≠ k))

/-- The state of a `FollowerNetwork` object: the dataclass fields plus the
private stored counter `_followings_counter`. -/
structure FollowerNetwork where
  streamer_id : String
  min_mutual : Nat
  _followings_counter : List (String × Nat)
  deriving DecidableEq

/-- `FollowerNetwork.__init__(streamer_id, min_mutual=3)` starts with an empty
counter (the caller passes `min_mutual` explicitly; the source default is 3). -/
def FollowerNetwork.mk0 (streamer_id : String) (min_mutual : Nat) : FollowerNetwork :=
  ⟨streamer_id, min_mutual, []⟩

/-- The property `FollowerNetwork.followings_counter`: pops `streamer_id` from
the stored counter (a state mutation) and returns that same counter; the result
is the pair (object after the access, value of the access). -/
def FollowerNetwork.followings_counter (fn : FollowerNetwork) :
    FollowerNetwork × List (String × Nat) :=
  let c := counterPop fn._followings_counter fn.streamer_id
  ({ fn with _followings_counter := c }, c)

/-- The property `FollowerNetwork.mutual_followings`: the entries of the
`followings_counter` access whose count is at least `min_mutual`; evaluating it
also performs that access's pop of the streamer id. -/
def FollowerNetwork.mutual_followings (fn : FollowerNetwork) :
    FollowerNetwork × List (String × Nat) :=
  let r := fn.followings_counter
  (r.1, r.2.filter (fun q => decide (fn.min_mutual ≤ q.2)))

/-- One element of the `data` list of a followings reply. -/
structure Following where
  to_id : String
  deriving DecidableEq

/-- A truthy followings reply: `reply.get('total')` and `reply.get('data')`.
A falsy reply (empty dict, failed fetch) is modelled as `Option.none`. -/
structure FollowingReply where
  total : Nat
  data : List Following
  deriving DecidableEq

/-- An element of a Python list returned by `batchify`: a bare uid string
(streaming mode returns a flat list of uids) or a sub-list of uids (flush mode
returns a list of batches). `new_candidate_batches` dispatches on
`isinstance(batches[0], list)`. -/
inductive PyItem where
  | s (uid : String)
  | l (uids : List String)
  deriving DecidableEq

/-- The `isinstance(item, list)` test. -/
def PyItem.isList : PyItem → Bool
  | .s _ => false
  | .l _ => true

/-- The uids an item contributes when iterated in a flattening comprehension. -/
def PyItem.uids : PyItem → List String
  | .s uid => [uid]
  | .l uids => uids

/-- The comprehension `[uid for sublist in batches for uid in sublist]`. -/
def pyFlatten (batches : List PyItem) : List String :=
  (batches.map PyItem.uids).flatten

/-- Iterating a flat Python list of uid strings (the elements `set.update`
receives when `flat_candidates` is the streaming result itself; a nested list
element never occurs on this path in the source). -/
def strsOf (batches : List PyItem) : List String :=
  batches.filterMap (fun it => match it with | .s uid => some uid | .l _ => none)

/-- The state of a `FollowNetPipe` object. `batch_history` is declared at
class scope in the source and never rebound, so every instance aliases one
process-wide set; a single-instance run sees it as below, and the aliasing
across instances is modelled explicitly where a claim needs it. -/
structure FollowNetPipe where
  folnet : FollowerNetwork
  max_followings : Nat
  num_collected : Nat
  num_skipped : Nat
  batch_history : Finset String
  deriving DecidableEq

/-- The class constant `FollowNetPipe.BATCH_SZ`. -/
def FollowNetPipe.BATCH_SZ : Nat := 100

/-- `FollowNetPipe.__init__(folnet, max_followings=150)` at process start:
counters 0, class-level `batch_history` still empty. -/
def FollowNetPipe.mk0 (folnet : FollowerNetwork) (max_followings : Nat) : FollowNetPipe :=
  ⟨folnet, max_followings, 0, 0, ∅⟩

/-- Fuel-indexed recursion behind `chunksOf`; the fuel only bounds the
recursion depth and `chunksOf` instantiates it with the list length, which
always suffices (each step drops at least one element when `sz ≠ 0`). -/
def chunksOfAux (sz : Nat) : Nat → List String → List (List String)
  | _, [] => []
  | 0, _ :: _ => []
  | fuel + 1, x :: xs =>
      if sz = 0 then []
      else (x :: xs).take sz :: chunksOfAux sz fuel ((x :: xs).drop sz)

/-- The slicing comprehension of `batchify`:
`[candidates[i:i + BATCH_SZ] for i in range(0, len(candidates), BATCH_SZ)]`
(the source only ever uses `sz = BATCH_SZ = 100`; the `sz = 0` guard merely
makes the recursion total). -/
def chunksOf (sz : Nat) (l : List String) : List (List String) :=
  chunksOfAux sz l.length l

/-- `FollowNetPipe.batchify(candidates, fetch_all)`: in flush mode, all slices
of size `BATCH_SZ`; in streaming mode, the flat prefix `candidates[:BATCH_SZ]`
when more than `BATCH_SZ` candidates exist, else the empty list. -/
def FollowNetPipe.batchify (candidates : List String) (fetch_all : Bool) : List PyItem :=
  if fetch_all then (chunksOf FollowNetPipe.BATCH_SZ candidates).map PyItem.l
  else if FollowNetPipe.BATCH_SZ < candidates.length then
    (candidates.take FollowNetPipe.BATCH_SZ).map PyItem.s
  else []

/-- The expression `self.folnet.mutual_followings.keys() - self.batch_history`
of `new_candidate_batches` (a Python set difference, modelled in the counter's
key order). -/
def FollowNetPipe.unreleased (p : FollowNetPipe) : List String :=
  ((p.folnet.mutual_followings).2.map Prod.fst).filter
    (fun uid => decide (uid ∉ p.batch_history))

/-- `FollowNetPipe.new_candidate_batches(remainder)`: batch the unreleased
qualifying candidates, flatten when the result is a list of sub-lists, and add
the released uids to `batch_history`; also records the state change the
`mutual_followings` property access makes to `folnet`. -/
def FollowNetPipe.new_candidate_batches (remainder : Bool) (p : FollowNetPipe) :
    List PyItem × FollowNetPipe :=
  let fn := (p.folnet.mutual_followings).1
  let batches := FollowNetPipe.batchify p.unreleased remainder
  let flat_candidates : List String :=
    if remainder && ((batches.head?.map PyItem.isList).getD false) then pyFlatten batches
    else strsOf batches
  (batches,
    { p with
        folnet := fn
        batch_history := p.batch_history ∪ flat_candidates.toFinset })

/-- `FollowNetPipe.update_followings(following_reply, all_batches)`: accept the
reply into the counter when its total is within `max_followings` (bumping
`num_collected`), otherwise bump `num_skipped`; a falsy reply changes nothing;
then return `new_candidate_batches(remainder=all_batches)`. -/
def FollowNetPipe.update_followings (following_reply : Option FollowingReply)
    (all_batches : Bool) (p : FollowNetPipe) : List PyItem × FollowNetPipe :=
  let p1 :=
    match following_reply with
    | some reply =>
        if reply.total ≤ p.max_followings then
          let r := p.folnet.followings_counter
          let c := counterUpdate r.2 (reply.data.map Following.to_id)
          { p with
              folnet := { r.1 with _followings_counter := c }
              num_collected := p.num_collected + 1 }
        else
          { p with num_skipped := p.num_skipped + 1 }
    | none => p
  FollowNetPipe.new_candidate_batches all_batches p1

/-- A worker-loop sequence of ingests, each with `all_batches = false` as in
`produce_followed_ids`. -/
def foldIngest (p : FollowNetPipe) : List (Option FollowingReply) → FollowNetPipe
  | [] => p
  | r :: rs => foldIngest (FollowNetPipe.update_followings r false p).2 rs

/-- The counter as observed through the public `followings_counter` accessor. -/
def observedCnt (p : FollowNetPipe) (uid : String) : Nat :=
  cnt (p.folnet.followings_counter).2 uid

/-- The key list of `mutual_followings` as returned by the property. -/
def mutualKeys (p : FollowNetPipe) : List String :=
  (p.folnet.mutual_followings).2.map Prod.fst

/-- The key set of `mutual_followings`. -/
def mutualFinset (p : FollowNetPipe) : Finset String :=
  (mutualKeys p).toFinset

/-- Per-reply contribution of one ingest to the observed count of `uid`. -/
def contrib (maxf : Nat) (r : Option FollowingReply) (uid : String) : Nat :=
  match r with
  | none => 0
  | some reply =>
      if reply.total ≤ maxf then occs (reply.data.map Following.to_id) uid else 0

/-- Well-formedness a Python `Counter` dict guarantees intrinsically: keys are
distinct, and every stored value is positive (entries only arise from
`update`). -/
def CounterWF (c : List (String × Nat)) : Prop :=
  (c.map Prod.fst).Nodup ∧ ∀ q ∈ c, 0 < q.2

/-- A fresh pipeline as built by `main`: fresh network, empty class history. -/
def pipe0 (sid : String) (mm maxf : Nat) : FollowNetPipe :=
  FollowNetPipe.mk0 (FollowerNetwork.mk0 sid mm) maxf

theorem cnt_counterIncr (c : List (String × Nat)) (k x : String) :
    cnt (counterIncr c k) x = cnt c x + (if k = x then 1 else 0) := by
  induction c with
  | nil => by_cases h : k = x <;> simp [counterIncr, cnt, h]
  | cons q rest ih =>
      obtain ⟨a, n⟩ := q
      by_cases hak : a = k
      · subst hak
        by_cases hax : a = x <;> simp [counterIncr, cnt, hax]
      · simp only [counterIncr, if_neg hak, cnt]
        by_cases hax : a = x
        · have hkx : k ≠ x := fun h => hak (hax.trans h.symm)
          simp [hax, hkx]
        · simp [hax, ih]

theorem cnt_counterUpdate (ks : List String) (c : List (String × Nat)) (x : String) :
    cnt (counterUpdate c ks) x = cnt c x + occs ks x := by
  induction ks generalizing c with
  | nil => simp [counterUpdate, occs]
  | cons k ks ih =>
      have h2 := ih (counterIncr c k)
      simp only [counterUpdate, List.foldl_cons, occs] at h2 ⊢
      rw [h2, cnt_counterIncr]
      omega

theorem cnt_counterPop (c : List (String × Nat)) (s x : String) :
    cnt (counterPop c s) x = if x = s then 0 else cnt c x := by
  induction c with
  | nil => simp [counterPop, cnt]
  | cons q rest ih =>
      obtain ⟨a, n⟩ := q
      by_cases has : a = s
      · have hdrop : counterPop ((a, n) :: rest) s = counterPop rest s := by
          simp [counterPop, has]
        rw [hdrop, ih]
        by_cases hxs : x = s
        · simp [hxs]
        · have hax : ¬ a = x := fun h => hxs (by rw [← h, has])
          simp [hxs, cnt, hax]
      · have hkeep : counterPop ((a, n) :: rest) s = (a, n) :: counterPop rest s := by
          simp [counterPop, has]
        rw [hkeep]
        simp only [cnt]
        by_cases hax : a = x
        · have hxs : ¬ x = s := fun h => has (hax.trans h)
          simp [hax, hxs]
        · simp [hax, ih]

theorem mem_keys_counterIncr (c : List (String × Nat)) (k x : String) :
    x ∈ (counterIncr c k).map Prod.fst ↔ x ∈ c.map Prod.fst ∨ x = k := by
  induction c with
  | nil => simp [counterIncr]
  | cons q rest ih =>
      obtain ⟨a, n⟩ := q
      by_cases hak : a = k
      · simp only [counterIncr]
        rw [if_pos hak]
        simp only [List.map_cons, List.mem_cons]
        constructor
        · exact Or.inl
        · rintro (h | h)
          · exact h
          · exact Or.inl (h.trans hak.symm)
      · simp only [counterIncr]
        rw [if_neg hak]
        simp only [List.map_cons, List.mem_cons, ih]
        tauto

theorem nodup_keys_counterIncr (c : List (String × Nat)) (k : String)
    (h : (c.map Prod.fst).Nodup) : ((counterIncr c k).map Prod.fst).Nodup := by
  induction c with
  | nil => simp [counterIncr]
  | cons q rest ih =>
      obtain ⟨a, n⟩ := q
      simp only [List.map_cons, List.nodup_cons] at h
      by_cases hak : a = k
      · subst hak
        simpa [counterIncr, List.nodup_cons] using h
      · simp only [counterIncr, if_neg hak, List.map_cons, List.nodup_cons]
        refine ⟨?_, ih h.2⟩
        intro hmem
        rcases (mem_keys_counterIncr rest k a).mp hmem with h1 | h1
        · exact h.1 h1
        · exact hak h1

theorem allpos_counterIncr (c : List (String × Nat)) (k : String)
    (h : ∀ q ∈ c, 0 < q.2) : ∀ q ∈ counterIncr c k, 0 < q.2 := by
  induction c with
  | nil =>
      intro q hq
      simp only [counterIncr, List.mem_singleton] at hq
      simp [hq]
  | cons b rest ih =>
      obtain ⟨a, n⟩ := b
      intro q hq
      simp only [counterIncr] at hq
      by_cases hak : a = k
      · rw [if_pos hak] at hq
        simp only [List.mem_cons] at hq
        rcases hq with hq | hq
        · rw [hq]
          simp
        · exact h q (List.mem_cons_of_mem _ hq)
      · rw [if_neg hak] at hq
        simp only [List.mem_cons] at hq
        rcases hq with hq | hq
        · rw [hq]
          exact h _ (List.mem_cons_self _ _)
        · exact ih (fun r hr => h r (List.mem_cons_of_mem _ hr)) q hq

theorem counterWF_counterIncr (c : List (String × Nat)) (k : String)
    (h : CounterWF c) : CounterWF (counterIncr c k) :=
  ⟨nodup_keys_counterIncr c k h.1, allpos_counterIncr c k h.2⟩

theorem counterWF_counterUpdate (ks : List String) (c : List (String × Nat))
    (h : CounterWF c) : CounterWF (counterUpdate c ks) := by
  induction ks generalizing c with
  | nil => exact h
  | cons k ks ih =>
      simpa [counterUpdate] using ih (counterIncr c k) (counterWF_counterIncr c k h)

theorem counterWF_counterPop (c : List (String × Nat)) (s : String)
    (h : CounterWF c) : CounterWF (counterPop c s) := by
  refine ⟨?_, ?_⟩
  · exact ((List.filter_sublist c).map Prod.fst).nodup h.1
  · intro q hq
    exact h.2 q (List.mem_of_mem_filter hq)

theorem mem_keys_counterPop (c : List (String × Nat)) (s x : String) :
    x ∈ (counterPop c s).map Prod.fst ↔ x ∈ c.map Prod.fst ∧ x ≠ s := by
  simp only [counterPop, List.mem_map, List.mem_filter, decide_eq_true_eq]
  constructor
  · rintro ⟨q, ⟨hq, hqs⟩, rfl⟩
    exact ⟨⟨q, hq, rfl⟩, hqs⟩
  · rintro ⟨⟨q, hq, rfl⟩, hxs⟩
    exact ⟨q, ⟨hq, hxs⟩, rfl⟩

theorem counterPop_counterPop (c : List (String × Nat)) (s : String) :
    counterPop (counterPop c s) s = counterPop c s := by
  simp [counterPop, List.filter_filter]

theorem mem_keys_iff_cnt_pos (c : List (String × Nat))
    (hpos : ∀ q ∈ c, 0 < q.2) (x : String) :
    x ∈ c.map Prod.fst ↔ 0 < cnt c x := by
  induction c with
  | nil => simp [cnt]
  | cons q rest ih =>
      obtain ⟨a, n⟩ := q
      simp only [List.map_cons, List.mem_cons, cnt]
      by_cases hax : a = x
      · rw [if_pos hax]
        have hn := hpos (a, n) (List.mem_cons_self _ _)
        exact ⟨fun _ => hn, fun _ => Or.inl hax.symm⟩
      · have hxa : ¬ x = a := fun h => hax h.symm
        rw [if_neg hax]
        simp [hxa, ih (fun r hr => hpos r (List.mem_cons_of_mem _ hr))]

theorem mem_keys_filter_ge (c : List (String × Nat)) (m : Nat)
    (hnd : (c.map Prod.fst).Nodup) (x : String) :
    x ∈ (c.filter (fun q => decide (m ≤ q.2))).map Prod.fst ↔
      x ∈ c.map Prod.fst ∧ m ≤ cnt c x := by
  induction c with
  | nil => simp [cnt]
  | cons q rest ih =>
      obtain ⟨a, n⟩ := q
      simp only [List.map_cons, List.nodup_cons] at hnd
      simp only [List.filter_cons, List.map_cons, List.mem_cons, cnt,
        decide_eq_true_eq]
      by_cases hax : a = x
      · subst hax
        simp only [if_pos rfl]
        by_cases hmn : m ≤ n
        · simp [if_pos hmn, hmn]
        · simp only [if_neg hmn]
          have hnot : a ∉ (rest.filter (fun q => decide (m ≤ q.2))).map Prod.fst := by
            intro hmem
            exact hnd.1 (((List.filter_sublist rest).map Prod.fst).subset hmem)
          simp [hnot, hmn]
      · have hxa : ¬ x = a := fun h => hax h.symm
        by_cases hmn : m ≤ n
        · simp [if_pos hmn, hxa, hax, ih hnd.2]
        · simp [if_neg hmn, hxa, hax, ih hnd.2]

theorem chunksOfAux_flatten (sz : Nat) (hsz : sz ≠ 0) :
    ∀ (fuel : Nat) (l : List String), l.length ≤ fuel →
      (chunksOfAux sz fuel l).flatten = l := by
  intro fuel
  induction fuel with
  | zero =>
      intro l hl
      have : l = [] := List.eq_nil_of_length_eq_zero (Nat.le_zero.mp hl)
      subst this
      simp [chunksOfAux]
  | succ fuel ih =>
      intro l hl
      match l with
      | [] => simp [chunksOfAux]
      | x :: xs =>
          simp only [chunksOfAux, if_neg hsz, List.flatten_cons]
          rw [ih]
          · exact List.take_append_drop sz (x :: xs)
          · simp only [List.length_drop, List.length_cons]
            simp only [List.length_cons] at hl
            omega

theorem chunksOf_flatten (sz : Nat) (hsz : sz ≠ 0) (l : List String) :
    (chunksOf sz l).flatten = l :=
  chunksOfAux_flatten sz hsz l.length l (Nat.le_refl _)

theorem chunksOfAux_length_le (sz : Nat) :
    ∀ (fuel : Nat) (l : List String), ∀ ch ∈ chunksOfAux sz fuel l, ch.length ≤ sz := by
  intro fuel
  induction fuel with
  | zero =>
      intro l ch hch
      cases l with
      | nil => simp [chunksOfAux] at hch
      | cons x xs => simp [chunksOfAux] at hch
  | succ fuel ih =>
      intro l ch hch
      cases l with
      | nil => simp [chunksOfAux] at hch
      | cons x xs =>
          by_cases hsz : sz = 0
          · simp [chunksOfAux, hsz] at hch
          · simp only [chunksOfAux, if_neg hsz, List.mem_cons] at hch
            rcases hch with hch | hch
            · rw [hch]
              simp [List.length_take]
            · exact ih _ ch hch

theorem chunksOf_length_le (sz : Nat) (l : List String) :
    ∀ ch ∈ chunksOf sz l, ch.length ≤ sz :=
  chunksOfAux_length_le sz l.length l

theorem chunksOfAux_dropLast_length (sz : Nat) (hsz : sz ≠ 0) :
    ∀ (fuel : Nat) (l : List String), l.length ≤ fuel →
      ∀ ch ∈ (chunksOfAux sz fuel l).dropLast, ch.length = sz := by
  intro fuel
  induction fuel with
  | zero =>
      intro l hl ch hch
      have : l = [] := List.eq_nil_of_length_eq_zero (Nat.le_zero.mp hl)
      subst this
      simp [chunksOfAux] at hch
  | succ fuel ih =>
      intro l hl ch hch
      cases l with
      | nil => simp [chunksOfAux] at hch
      | cons x xs =>
          simp only [chunksOfAux, if_neg hsz] at hch
          rcases hdrop : chunksOfAux sz fuel ((x :: xs).drop sz) with _ | ⟨c2, cs⟩
          · rw [hdrop] at hch
            simp at hch
          · rw [hdrop, List.dropLast_cons₂] at hch
            simp only [List.mem_cons] at hch
            have hlen : sz < (x :: xs).length := by
              by_contra hle
              push_neg at hle
              have : (x :: xs).drop sz = [] := List.drop_eq_nil_of_le hle
              rw [this] at hdrop
              simp [chunksOfAux] at hdrop
            rcases hch with hch | hch
            · rw [hch, List.length_take]
              omega
            · have := ih ((x :: xs).drop sz) (by
                simp only [List.length_drop, List.length_cons]
                simp only [List.length_cons] at hl
                omega) ch
              rw [hdrop] at this
              exact this hch

theorem chunksOf_dropLast_length (sz : Nat) (hsz : sz ≠ 0) (l : List String) :
    ∀ ch ∈ (chunksOf sz l).dropLast, ch.length = sz :=
  chunksOfAux_dropLast_length sz hsz l.length l (Nat.le_refl _)

theorem pyFlatten_map_l (chs : List (List String)) :
    pyFlatten (chs.map PyItem.l) = chs.flatten := by
  unfold pyFlatten
  rw [List.map_map]
  have h : PyItem.uids ∘ PyItem.l = id := by
    funext u
    rfl
  rw [h, List.map_id]

theorem strsOf_map_s (l : List String) : strsOf (l.map PyItem.s) = l := by
  induction l with
  | nil => rfl
  | cons x xs ih => simp [strsOf, List.filterMap_cons] at ih ⊢; exact ih

theorem strsOf_nil : strsOf [] = [] := rfl

theorem followings_counter_snd (fn : FollowerNetwork) :
    (fn.followings_counter).2 = counterPop fn._followings_counter fn.streamer_id := rfl

theorem mutual_followings_fst (fn : FollowerNetwork) :
    (fn.mutual_followings).1 =
      { fn with _followings_counter := counterPop fn._followings_counter fn.streamer_id } := rfl

theorem mutual_followings_snd (fn : FollowerNetwork) :
    (fn.mutual_followings).2 =
      (counterPop fn._followings_counter fn.streamer_id).filter
        (fun q => decide (fn.min_mutual ≤ q.2)) := rfl

theorem observedCnt_eq (p : FollowNetPipe) (uid : String) :
    observedCnt p uid =
      if uid = p.folnet.streamer_id then 0
      else cnt p.folnet._followings_counter uid := by
  rw [observedCnt, followings_counter_snd, cnt_counterPop]

theorem observedCnt_streamer (p : FollowNetPipe) :
    observedCnt p p.folnet.streamer_id = 0 := by
  simp [observedCnt_eq]

theorem ncb_fst (b : Bool) (p : FollowNetPipe) :
    (p.new_candidate_batches b).1 = FollowNetPipe.batchify p.unreleased b := rfl

theorem ncb_folnet (b : Bool) (p : FollowNetPipe) :
    (p.new_candidate_batches b).2.folnet = (p.folnet.mutual_followings).1 := rfl

theorem ncb_num_collected (b : Bool) (p : FollowNetPipe) :
    (p.new_candidate_batches b).2.num_collected = p.num_collected := rfl

theorem ncb_num_skipped (b : Bool) (p : FollowNetPipe) :
    (p.new_candidate_batches b).2.num_skipped = p.num_skipped := rfl

theorem ncb_max_followings (b : Bool) (p : FollowNetPipe) :
    (p.new_candidate_batches b).2.max_followings = p.max_followings := rfl

theorem ncb_batch_history (b : Bool) (p : FollowNetPipe) :
    (p.new_candidate_batches b).2.batch_history =
      p.batch_history ∪
        (if b && (((FollowNetPipe.batchify p.unreleased b).head?.map PyItem.isList).getD false)
         then pyFlatten (FollowNetPipe.batchify p.unreleased b)
         else strsOf (FollowNetPipe.batchify p.unreleased b)).toFinset := rfl

theorem unreleased_eq (p : FollowNetPipe) :
    p.unreleased = (mutualKeys p).filter (fun uid => decide (uid ∉ p.batch_history)) := rfl

theorem batchify_false_le (cands : List String)
    (h : cands.length ≤ FollowNetPipe.BATCH_SZ) :
    FollowNetPipe.batchify cands false = [] := by
  have h2 : ¬ FollowNetPipe.BATCH_SZ < cands.length := Nat.not_lt.mpr h
  simp [FollowNetPipe.batchify, h2]

theorem batchify_false_gt (cands : List String)
    (h : FollowNetPipe.BATCH_SZ < cands.length) :
    FollowNetPipe.batchify cands false =
      (cands.take FollowNetPipe.BATCH_SZ).map PyItem.s := by
  simp [FollowNetPipe.batchify, h]

theorem batchify_true (cands : List String) :
    FollowNetPipe.batchify cands true =
      (chunksOf FollowNetPipe.BATCH_SZ cands).map PyItem.l := by
  simp [FollowNetPipe.batchify]

theorem strsOf_map_l (chs : List (List String)) : strsOf (chs.map PyItem.l) = [] := by
  induction chs with
  | nil => rfl
  | cons c cs ih => simp [strsOf, List.filterMap_cons]

theorem ncb_false_history_le (p : FollowNetPipe)
    (h : p.unreleased.length ≤ FollowNetPipe.BATCH_SZ) :
    (p.new_candidate_batches false).2.batch_history = p.batch_history := by
  rw [ncb_batch_history, batchify_false_le _ h]
  simp [strsOf]

theorem ncb_false_history_gt (p : FollowNetPipe)
    (h : FollowNetPipe.BATCH_SZ < p.unreleased.length) :
    (p.new_candidate_batches false).2.batch_history =
      p.batch_history ∪ (p.unreleased.take FollowNetPipe.BATCH_SZ).toFinset := by
  rw [ncb_batch_history, batchify_false_gt _ h, Bool.false_and]
  rw [if_neg (by simp), strsOf_map_s]

theorem ncb_true_history (p : FollowNetPipe) :
    (p.new_candidate_batches true).2.batch_history =
      p.batch_history ∪ p.unreleased.toFinset := by
  rw [ncb_batch_history, batchify_true]
  have hfl := chunksOf_flatten FollowNetPipe.BATCH_SZ (by decide) p.unreleased
  rcases hch : chunksOf FollowNetPipe.BATCH_SZ p.unreleased with _ | ⟨c, cs⟩
  · rw [hch] at hfl
    have hu : p.unreleased = [] := by simpa using hfl.symm
    rw [hu]
    simp [strsOf]
  · rw [hch] at hfl
    have hcond : ((List.map PyItem.l (c :: cs)).head?.map PyItem.isList).getD false = true := by
      simp [PyItem.isList]
    rw [hcond, Bool.and_true, if_pos rfl, pyFlatten_map_l, hfl]

theorem mutualKeys_ncb (b : Bool) (p : FollowNetPipe) :
    mutualKeys (p.new_candidate_batches b).2 = mutualKeys p := by
  unfold mutualKeys
  rw [ncb_folnet, mutual_followings_fst]
  rw [mutual_followings_snd, mutual_followings_snd]
  simp [counterPop_counterPop]

theorem observedCnt_ncb (b : Bool) (p : FollowNetPipe) (uid : String) :
    observedCnt (p.new_candidate_batches b).2 uid = observedCnt p uid := by
  unfold observedCnt
  rw [followings_counter_snd, followings_counter_snd, ncb_folnet, mutual_followings_fst]
  simp [counterPop_counterPop]

theorem mem_unreleased_not_history (p : FollowNetPipe) (x : String)
    (hx : x ∈ p.unreleased) : x ∉ p.batch_history := by
  rw [unreleased_eq] at hx
  simpa using List.of_mem_filter hx

theorem mem_unreleased_mutualKeys (p : FollowNetPipe) (x : String)
    (hx : x ∈ p.unreleased) : x ∈ mutualKeys p := by
  rw [unreleased_eq] at hx
  exact List.mem_of_mem_filter hx

theorem ncb_history_mem (b : Bool) (q : FollowNetPipe) (x : String)
    (hx : x ∈ (q.new_candidate_batches b).2.batch_history) :
    x ∈ q.batch_history ∨ x ∈ q.unreleased := by
  cases b with
  | true =>
      rw [ncb_true_history] at hx
      rcases Finset.mem_union.mp hx with h | h
      · exact Or.inl h
      · exact Or.inr (List.mem_toFinset.mp h)
  | false =>
      by_cases hlen : FollowNetPipe.BATCH_SZ < q.unreleased.length
      · rw [ncb_false_history_gt q hlen] at hx
        rcases Finset.mem_union.mp hx with h | h
        · exact Or.inl h
        · exact Or.inr (List.take_subset _ _ (List.mem_toFinset.mp h))
      · rw [ncb_false_history_le q (Nat.not_lt.mp hlen)] at hx
        exact Or.inl hx

theorem ncb_history_grows (b : Bool) (q : FollowNetPipe) (x : String)
    (hx : x ∈ q.batch_history) :
    x ∈ (q.new_candidate_batches b).2.batch_history := by
  rw [ncb_batch_history]
  exact Finset.mem_union_left _ hx

theorem followings_counter_fst (fn : FollowerNetwork) :
    (fn.followings_counter).1 =
      { fn with _followings_counter := counterPop fn._followings_counter fn.streamer_id } := rfl

theorem ncb_streamer (b : Bool) (p : FollowNetPipe) :
    (p.new_candidate_batches b).2.folnet.streamer_id = p.folnet.streamer_id := rfl

theorem ncb_min_mutual (b : Bool) (p : FollowNetPipe) :
    (p.new_candidate_batches b).2.folnet.min_mutual = p.folnet.min_mutual := rfl

theorem ncb_counter (b : Bool) (p : FollowNetPipe) :
    (p.new_candidate_batches b).2.folnet._followings_counter =
      counterPop p.folnet._followings_counter p.folnet.streamer_id := rfl

theorem uf_eq_none (b : Bool) (p : FollowNetPipe) :
    p.update_followings none b = p.new_candidate_batches b := rfl

theorem uf_eq_accept (reply : FollowingReply) (b : Bool) (p : FollowNetPipe)
    (h : reply.total ≤ p.max_followings) :
    p.update_followings (some reply) b =
      FollowNetPipe.new_candidate_batches b
        { p with
            folnet := { (p.folnet.followings_counter).1 with
              _followings_counter :=
                counterUpdate (p.folnet.followings_counter).2
                  (reply.data.map Following.to_id) }
            num_collected := p.num_collected + 1 } := by
  simp only [FollowNetPipe.update_followings, if_pos h]

theorem uf_eq_reject (reply : FollowingReply) (b : Bool) (p : FollowNetPipe)
    (h : ¬ reply.total ≤ p.max_followings) :
    p.update_followings (some reply) b =
      FollowNetPipe.new_candidate_batches b
        { p with num_skipped := p.num_skipped + 1 } := by
  simp only [FollowNetPipe.update_followings, if_neg h]

theorem uf_streamer (r : Option FollowingReply) (b : Bool) (p : FollowNetPipe) :
    (p.update_followings r b).2.folnet.streamer_id = p.folnet.streamer_id := by
  cases r with
  | none => rfl
  | some reply =>
      by_cases h : reply.total ≤ p.max_followings
      · rw [uf_eq_accept reply b p h]
        rfl
      · rw [uf_eq_reject reply b p h]
        rfl

theorem uf_min_mutual (r : Option FollowingReply) (b : Bool) (p : FollowNetPipe) :
    (p.update_followings r b).2.folnet.min_mutual = p.folnet.min_mutual := by
  cases r with
  | none => rfl
  | some reply =>
      by_cases h : reply.total ≤ p.max_followings
      · rw [uf_eq_accept reply b p h]
        rfl
      · rw [uf_eq_reject reply b p h]
        rfl

theorem uf_max_followings (r : Option FollowingReply) (b : Bool) (p : FollowNetPipe) :
    (p.update_followings r b).2.max_followings = p.max_followings := by
  cases r with
  | none => rfl
  | some reply =>
      by_cases h : reply.total ≤ p.max_followings
      · rw [uf_eq_accept reply b p h]
        rfl
      · rw [uf_eq_reject reply b p h]
        rfl

theorem observedCnt_uf (r : Option FollowingReply) (b : Bool) (p : FollowNetPipe)
    (uid : String) (huid : uid ≠ p.folnet.streamer_id) :
    observedCnt (p.update_followings r b).2 uid =
      observedCnt p uid + contrib p.max_followings r uid := by
  cases r with
  | none =>
      rw [uf_eq_none, observedCnt_ncb]
      simp [contrib]
  | some reply =>
      by_cases h : reply.total ≤ p.max_followings
      · rw [uf_eq_accept reply b p h, observedCnt_ncb]
        simp only [observedCnt_eq, followings_counter_fst, followings_counter_snd, contrib,
          if_pos h, if_neg huid, cnt_counterUpdate, cnt_counterPop]
        try simp [huid]
      · rw [uf_eq_reject reply b p h, observedCnt_ncb]
        simp only [observedCnt_eq, contrib, if_neg h, if_neg huid]
        try simp [huid]

theorem counterWF_uf (r : Option FollowingReply) (b : Bool) (p : FollowNetPipe)
    (h : CounterWF p.folnet._followings_counter) :
    CounterWF (p.update_followings r b).2.folnet._followings_counter := by
  cases r with
  | none =>
      rw [uf_eq_none, ncb_counter]
      exact counterWF_counterPop _ _ h
  | some reply =>
      by_cases hacc : reply.total ≤ p.max_followings
      · rw [uf_eq_accept reply b p hacc, ncb_counter]
        exact counterWF_counterPop _ _
          (counterWF_counterUpdate _ _ (counterWF_counterPop _ _ h))
      · rw [uf_eq_reject reply b p hacc, ncb_counter]
        exact counterWF_counterPop _ _ h

theorem uf_accept_counts (reply : FollowingReply) (b : Bool) (p : FollowNetPipe)
    (h : reply.total ≤ p.max_followings) :
    (p.update_followings (some reply) b).2.num_collected = p.num_collected + 1 ∧
    (p.update_followings (some reply) b).2.num_skipped = p.num_skipped := by
  rw [uf_eq_accept reply b p h]
  exact ⟨rfl, rfl⟩

theorem uf_reject_counts (reply : FollowingReply) (b : Bool) (p : FollowNetPipe)
    (h : ¬ reply.total ≤ p.max_followings) :
    (p.update_followings (some reply) b).2.num_collected = p.num_collected ∧
    (p.update_followings (some reply) b).2.num_skipped = p.num_skipped + 1 := by
  rw [uf_eq_reject reply b p h]
  exact ⟨rfl, rfl⟩

theorem uf_isSome_counts (r : Option FollowingReply) (b : Bool) (p : FollowNetPipe) :
    (p.update_followings r b).2.num_collected + (p.update_followings r b).2.num_skipped =
      p.num_collected + p.num_skipped + (if r.isSome then 1 else 0) := by
  cases r with
  | none => simp [uf_eq_none, ncb_num_collected, ncb_num_skipped]
  | some reply =>
      by_cases h : reply.total ≤ p.max_followings
      · rw [(uf_accept_counts reply b p h).1, (uf_accept_counts reply b p h).2]
        simp
        omega
      · rw [(uf_reject_counts reply b p h).1, (uf_reject_counts reply b p h).2]
        simp
        omega

theorem uf_history_mem (r : Option FollowingReply) (b : Bool) (p : FollowNetPipe)
    (x : String) (hx : x ∈ (p.update_followings r b).2.batch_history) :
    x ∈ p.batch_history ∨ x ∈ mutualFinset (p.update_followings r b).2 := by
  cases r with
  | none =>
      rw [uf_eq_none] at hx ⊢
      rcases ncb_history_mem b p x hx with h | h
      · exact Or.inl h
      · right
        rw [mutualFinset, mutualKeys_ncb]
        exact List.mem_toFinset.mpr (mem_unreleased_mutualKeys _ _ h)
  | some reply =>
      by_cases hacc : reply.total ≤ p.max_followings
      · rw [uf_eq_accept reply b p hacc] at hx ⊢
        rcases ncb_history_mem b _ x hx with h | h
        · exact Or.inl h
        · right
          rw [mutualFinset, mutualKeys_ncb]
          exact List.mem_toFinset.mpr (mem_unreleased_mutualKeys _ _ h)
      · rw [uf_eq_reject reply b p hacc] at hx ⊢
        rcases ncb_history_mem b _ x hx with h | h
        · exact Or.inl h
        · right
          rw [mutualFinset, mutualKeys_ncb]
          exact List.mem_toFinset.mpr (mem_unreleased_mutualKeys _ _ h)

theorem uf_history_grows (r : Option FollowingReply) (b : Bool) (p : FollowNetPipe)
    (x : String) (hx : x ∈ p.batch_history) :
    x ∈ (p.update_followings r b).2.batch_history := by
  cases r with
  | none => exact ncb_history_grows b p x hx
  | some reply =>
      by_cases hacc : reply.total ≤ p.max_followings
      · rw [uf_eq_accept reply b p hacc]
        exact ncb_history_grows b _ x hx
      · rw [uf_eq_reject reply b p hacc]
        exact ncb_history_grows b _ x hx

theorem mem_mutualKeys_obs (p : FollowNetPipe)
    (hwf : CounterWF p.folnet._followings_counter) (x : String) :
    x ∈ mutualKeys p ↔
      0 < observedCnt p x ∧ p.folnet.min_mutual ≤ observedCnt p x := by
  unfold mutualKeys
  rw [mutual_followings_snd]
  rw [mem_keys_filter_ge _ _ ((counterWF_counterPop _ _ hwf).1)]
  rw [mem_keys_iff_cnt_pos _ ((counterWF_counterPop _ _ hwf).2)]
  exact Iff.rfl

theorem mutualFinset_mono_uf (r : Option FollowingReply) (b : Bool) (p : FollowNetPipe)
    (hwf : CounterWF p.folnet._followings_counter) :
    mutualFinset p ⊆ mutualFinset (p.update_followings r b).2 := by
  intro x hx
  rw [mutualFinset, List.mem_toFinset] at hx ⊢
  rw [mem_mutualKeys_obs p hwf] at hx
  rw [mem_mutualKeys_obs _ (counterWF_uf r b p hwf)]
  have hx0 : x ≠ p.folnet.streamer_id := by
    intro heq
    rw [heq, observedCnt_streamer] at hx
    exact Nat.lt_irrefl 0 hx.1
  have hstep := observedCnt_uf r b p x hx0
  rw [hstep, uf_min_mutual]
  exact ⟨Nat.lt_of_lt_of_le hx.1 (Nat.le_add_right _ _),
    Nat.le_trans hx.2 (Nat.le_add_right _ _)⟩

theorem counterWF_foldIngest (rs : List (Option FollowingReply)) (p : FollowNetPipe)
    (h : CounterWF p.folnet._followings_counter) :
    CounterWF (foldIngest p rs).folnet._followings_counter := by
  induction rs generalizing p with
  | nil => exact h
  | cons r rs ih => exact ih _ (counterWF_uf r false p h)

theorem foldIngest_streamer (rs : List (Option FollowingReply)) (p : FollowNetPipe) :
    (foldIngest p rs).folnet.streamer_id = p.folnet.streamer_id := by
  induction rs generalizing p with
  | nil => rfl
  | cons r rs ih => rw [foldIngest, ih, uf_streamer]

theorem foldIngest_min_mutual (rs : List (Option FollowingReply)) (p : FollowNetPipe) :
    (foldIngest p rs).folnet.min_mutual = p.folnet.min_mutual := by
  induction rs generalizing p with
  | nil => rfl
  | cons r rs ih => rw [foldIngest, ih, uf_min_mutual]

theorem foldIngest_max_followings (rs : List (Option FollowingReply)) (p : FollowNetPipe) :
    (foldIngest p rs).max_followings = p.max_followings := by
  induction rs generalizing p with
  | nil => rfl
  | cons r rs ih => rw [foldIngest, ih, uf_max_followings]

theorem observedCnt_foldIngest (rs : List (Option FollowingReply)) (p : FollowNetPipe)
    (uid : String) (huid : uid ≠ p.folnet.streamer_id) :
    observedCnt (foldIngest p rs) uid =
      observedCnt p uid + ((rs.map (fun r => contrib p.max_followings r uid)).sum) := by
  induction rs generalizing p with
  | nil => simp [foldIngest]
  | cons r rs ih =>
      rw [foldIngest, ih _ (by rw [uf_streamer]; exact huid),
        observedCnt_uf r false p uid huid, uf_max_followings]
      simp only [List.map_cons, List.sum_cons]
      omega

theorem counts_foldIngest (rs : List (Option FollowingReply)) (p : FollowNetPipe) :
    (foldIngest p rs).num_collected + (foldIngest p rs).num_skipped =
      p.num_collected + p.num_skipped + rs.countP (fun r => r.isSome) := by
  induction rs generalizing p with
  | nil => simp [foldIngest]
  | cons r rs ih =>
      rw [foldIngest, ih, uf_isSome_counts, List.countP_cons]
      cases r <;> omega

theorem history_foldIngest (rs : List (Option FollowingReply)) (p : FollowNetPipe)
    (hwf : CounterWF p.folnet._followings_counter)
    (hsub : p.batch_history ⊆ mutualFinset p) :
    (foldIngest p rs).batch_history ⊆ mutualFinset (foldIngest p rs) := by
  induction rs generalizing p with
  | nil => exact hsub
  | cons r rs ih =>
      rw [foldIngest]
      refine ih _ (counterWF_uf r false p hwf) ?_
      intro x hx
      rcases uf_history_mem r false p x hx with h | h
      · exact mutualFinset_mono_uf r false p hwf (hsub h)
      · exact h

theorem unreleased_toFinset (q : FollowNetPipe) :
    q.unreleased.toFinset = mutualFinset q \ q.batch_history := by
  rw [unreleased_eq, mutualFinset]
  ext x
  simp [List.mem_filter, Finset.mem_sdiff, List.mem_toFinset]

theorem flush_history (q : FollowNetPipe) (hq : q.batch_history ⊆ mutualFinset q) :
    (q.new_candidate_batches true).2.batch_history = mutualFinset q := by
  rw [ncb_true_history, unreleased_toFinset, Finset.union_sdiff_self_eq_union]
  exact Finset.union_eq_right.mpr hq

theorem mutualKeys_ne_streamer (p : FollowNetPipe) (x : String)
    (hx : x ∈ mutualKeys p) : x ≠ p.folnet.streamer_id := by
  unfold mutualKeys at hx
  rw [mutual_followings_snd] at hx
  rcases List.mem_map.mp hx with ⟨q, hq, rfl⟩
  have hq2 : q ∈ counterPop p.folnet._followings_counter p.folnet.streamer_id :=
    List.mem_of_mem_filter hq
  have hmem : q.1 ∈ (counterPop p.folnet._followings_counter p.folnet.streamer_id).map
      Prod.fst := List.mem_map.mpr ⟨q, hq2, rfl⟩
  exact ((mem_keys_counterPop _ _ _).mp hmem).2

theorem unreleased_nodup (p : FollowNetPipe)
    (hwf : CounterWF p.folnet._followings_counter) : p.unreleased.Nodup := by
  rw [unreleased_eq]
  apply List.Nodup.filter
  unfold mutualKeys
  rw [mutual_followings_snd]
  exact ((List.filter_sublist _).map Prod.fst).nodup (counterWF_counterPop _ _ hwf).1

/-- Claim C1: for every sequence of follower reports ingested into a freshly built
pipeline, whether or not any report's followed-ids include the subject id, the subject
id never appears in the counter as observed through the public `followings_counter`
accessor, and never among the keys of `mutual_followings`. -/
theorem claim_C1 (sid : String) (mm maxf : Nat) (rs : List (Option FollowingReply)) :
    sid ∉ ((foldIngest (pipe0 sid mm maxf) rs).folnet.followings_counter).2.map Prod.fst ∧
    sid ∉ mutualKeys (foldIngest (pipe0 sid mm maxf) rs) := by
  have hsid : (foldIngest (pipe0 sid mm maxf) rs).folnet.streamer_id = sid := by
    rw [foldIngest_streamer]
    rfl
  constructor
  · rw [followings_counter_snd]
    intro hmem
    exact ((mem_keys_counterPop _ _ _).mp hmem).2 hsid.symm
  · intro hmem
    exact mutualKeys_ne_streamer _ _ hmem hsid.symm

/-- Claim C2: with `chunk_size = BATCH_SZ = 100`, one streaming-release call on any
well-formed batcher state behaves as follows: when more than 100 qualifying candidates
are unreleased it returns a single flat chunk of exactly 100 distinct ids none of which
was released before, and adds exactly those ids to the released set; when 100 or fewer
are unreleased it returns the empty result and releases nothing. -/
theorem claim_C2 (p : FollowNetPipe) (hwf : CounterWF p.folnet._followings_counter) :
    (FollowNetPipe.BATCH_SZ < p.unreleased.length →
      (p.new_candidate_batches false).1 =
        (p.unreleased.take FollowNetPipe.BATCH_SZ).map PyItem.s ∧
      (p.unreleased.take FollowNetPipe.BATCH_SZ).length = FollowNetPipe.BATCH_SZ ∧
      (p.unreleased.take FollowNetPipe.BATCH_SZ).Nodup ∧
      (∀ uid ∈ p.unreleased.take FollowNetPipe.BATCH_SZ, uid ∉ p.batch_history) ∧
      (p.new_candidate_batches false).2.batch_history =
        p.batch_history ∪ (p.unreleased.take FollowNetPipe.BATCH_SZ).toFinset) ∧
    (p.unreleased.length ≤ FollowNetPipe.BATCH_SZ →
      (p.new_candidate_batches false).1 = [] ∧
      (p.new_candidate_batches false).2.batch_history = p.batch_history) := by
  constructor
  · intro hgt
    refine ⟨?_, ?_, ?_, ?_, ?_⟩
    · rw [ncb_fst, batchify_false_gt _ hgt]
    · rw [List.length_take]
      omega
    · exact (List.take_sublist _ _).nodup (unreleased_nodup p hwf)
    · intro uid huid
      exact mem_unreleased_not_history p uid (List.take_subset _ _ huid)
    · exact ncb_false_history_gt p hgt
  · intro hle
    exact ⟨by rw [ncb_fst, batchify_false_le _ hle], ncb_false_history_le p hle⟩

/-- A concrete well-formed state with 101 unreleased qualifying candidates, used to
instantiate streaming- and flush-release statements. -/
def wState : FollowNetPipe :=
  FollowNetPipe.mk0 ⟨"s", 1, (List.range 101).map (fun i => (toString i, 1))⟩ 150

theorem claim_C2_witness :
    (wState.new_candidate_batches false).1 =
      (wState.unreleased.take FollowNetPipe.BATCH_SZ).map PyItem.s :=
  ((claim_C2 wState ⟨by decide, by decide⟩).1 (by decide)).1

/-- Claim C3: one flush-release call returns all unreleased qualifying candidates
partitioned into consecutive chunks, marks exactly them released (so, whenever the
released set only held qualifying candidates, it afterwards equals the
`mutual_followings` key set at flush time), the union of the chunks has no duplicates
and is exactly the newly released ids, every chunk is at most `BATCH_SZ` long and only
the final chunk may be shorter. -/
theorem claim_C3 (p : FollowNetPipe) (hwf : CounterWF p.folnet._followings_counter) :
    (p.new_candidate_batches true).1 =
      (chunksOf FollowNetPipe.BATCH_SZ p.unreleased).map PyItem.l ∧
    pyFlatten (p.new_candidate_batches true).1 = p.unreleased ∧
    p.unreleased.Nodup ∧
    (∀ uid ∈ p.unreleased, uid ∉ p.batch_history) ∧
    (p.new_candidate_batches true).2.batch_history =
      p.batch_history ∪ p.unreleased.toFinset ∧
    (p.new_candidate_batches true).2.batch_history \ p.batch_history =
      p.unreleased.toFinset ∧
    (∀ ch ∈ chunksOf FollowNetPipe.BATCH_SZ p.unreleased,
      ch.length ≤ FollowNetPipe.BATCH_SZ) ∧
    (∀ ch ∈ (chunksOf FollowNetPipe.BATCH_SZ p.unreleased).dropLast,
      ch.length = FollowNetPipe.BATCH_SZ) ∧
    (p.batch_history ⊆ mutualFinset p →
      (p.new_candidate_batches true).2.batch_history = mutualFinset p) := by
  refine ⟨?_, ?_, unreleased_nodup p hwf, mem_unreleased_not_history p,
    ncb_true_history p, ?_, chunksOf_length_le _ _,
    chunksOf_dropLast_length _ (by decide) _, flush_history p⟩
  · rw [ncb_fst, batchify_true]
  · rw [ncb_fst, batchify_true, pyFlatten_map_l, chunksOf_flatten _ (by decide)]
  · rw [ncb_true_history]
    ext x
    simp only [Finset.mem_sdiff, Finset.mem_union, List.mem_toFinset]
    constructor
    · rintro ⟨h1 | h1, h2⟩
      · exact absurd h1 h2
      · exact h1
    · intro hx
      exact ⟨Or.inr hx, mem_unreleased_not_history p x hx⟩

theorem claim_C3_witness :
    pyFlatten (wState.new_candidate_batches true).1 = wState.unreleased :=
  (claim_C3 wState ⟨by decide, by decide⟩).2.1

/-- Claim C4: the source declares `batch_history` at class scope of `FollowNetPipe` and
`__init__` never rebinds it, while all mutation goes through in-place `set.update`, so
every instance in a process aliases one released set; modelling two instances that share
the one set: ids already released through the first instance are excluded from the
second instance's unreleased-candidate computation, both before and after a further
ingest through the first instance, so a second pipe does not start with an independent
empty released state. -/
theorem claim_C4 (p1 p2 : FollowNetPipe) (r : Option FollowingReply) (b : Bool)
    (halias : p2.batch_history = p1.batch_history) :
    (∀ uid ∈ p1.batch_history, uid ∉ p2.unreleased) ∧
    (∀ uid ∈ (p1.update_followings r b).2.batch_history,
      uid ∉ ({ p2 with
        batch_history := (p1.update_followings r b).2.batch_history } :
          FollowNetPipe).unreleased) := by
  constructor
  · intro uid hu hmem
    have hnot : uid ∉ p2.batch_history := mem_unreleased_not_history p2 uid hmem
    rw [halias] at hnot
    exact hnot hu
  · intro uid hu hmem
    exact mem_unreleased_not_history _ uid hmem hu

theorem claim_C4_witness :
    "u" ∉ ({ pipe0 "b" 1 150 with batch_history := ({"u"} : Finset String) } :
        FollowNetPipe).unreleased :=
  (claim_C4 { pipe0 "a" 1 150 with batch_history := ({"u"} : Finset String) }
    { pipe0 "b" 1 150 with batch_history := ({"u"} : Finset String) } none false rfl).1
    "u" (by decide)

/-- A within-bound report whose followed-ids include the subject id. -/
def c5reply : FollowingReply := ⟨1, [⟨"s"⟩]⟩

/-- Claim C5 as frozen is false on the code: for a non-empty within-bound report whose
followed-ids include the subject id, the count of that followed-id does not increment —
the accessor pops the subject id, so its observed count stays 0. -/
theorem claim_C5_cex :
    c5reply.total ≤ (pipe0 "s" 3 150).max_followings ∧
    (⟨"s"⟩ : Following) ∈ c5reply.data ∧
    ¬ (observedCnt ((pipe0 "s" 3 150).update_followings (some c5reply) false).2 "s" =
        observedCnt (pipe0 "s" 3 150) "s" + 1) := by
  decide

/-- Claim C5 (amended): for every non-empty report, if its total is within
`max_followings` the ingest bumps `num_collected` by one, leaves `num_skipped`
unchanged, and increments the observed count of every followed-id occurrence other than
the subject id by one; if the total exceeds the bound it bumps `num_skipped` by one and
leaves `num_collected` and all observed counts unchanged; and over any ingest sequence,
`num_collected + num_skipped` grows by exactly the number of non-empty reports. -/
theorem claim_C5 (p : FollowNetPipe) (reply : FollowingReply) :
    (reply.total ≤ p.max_followings →
      (p.update_followings (some reply) false).2.num_collected = p.num_collected + 1 ∧
      (p.update_followings (some reply) false).2.num_skipped = p.num_skipped ∧
      (∀ uid, uid ≠ p.folnet.streamer_id →
        observedCnt (p.update_followings (some reply) false).2 uid =
          observedCnt p uid + occs (reply.data.map Following.to_id) uid)) ∧
    (p.max_followings < reply.total →
      (p.update_followings (some reply) false).2.num_skipped = p.num_skipped + 1 ∧
      (p.update_followings (some reply) false).2.num_collected = p.num_collected ∧
      (∀ uid, observedCnt (p.update_followings (some reply) false).2 uid =
        observedCnt p uid)) ∧
    (∀ (q : FollowNetPipe) (rs : List (Option FollowingReply)),
      (foldIngest q rs).num_collected + (foldIngest q rs).num_skipped =
        q.num_collected + q.num_skipped + rs.countP (fun r => r.isSome)) := by
  refine ⟨?_, ?_, fun q rs => counts_foldIngest rs q⟩
  · intro h
    refine ⟨(uf_accept_counts reply false p h).1, (uf_accept_counts reply false p h).2, ?_⟩
    intro uid huid
    rw [observedCnt_uf (some reply) false p uid huid]
    simp [contrib, if_pos h]
  · intro hlt
    have h : ¬ reply.total ≤ p.max_followings := Nat.not_le.mpr hlt
    refine ⟨(uf_reject_counts reply false p h).2, (uf_reject_counts reply false p h).1, ?_⟩
    intro uid
    by_cases huid : uid = p.folnet.streamer_id
    · have h1 := observedCnt_streamer (p.update_followings (some reply) false).2
      rw [uf_streamer] at h1
      rw [huid, h1, observedCnt_streamer]
    · rw [observedCnt_uf (some reply) false p uid huid]
      simp [contrib, if_neg h]

theorem claim_C5_witness :
    ((pipe0 "s" 3 150).update_followings (some ⟨2, [⟨"x"⟩, ⟨"y"⟩]⟩) false).2.num_collected =
      (pipe0 "s" 3 150).num_collected + 1 :=
  ((claim_C5 (pipe0 "s" 3 150) ⟨2, [⟨"x"⟩, ⟨"y"⟩]⟩).1 (by decide)).1

/-- An aggregator state whose stored counter still holds the subject id — exactly the
state `update_followings` reaches right after recording a report whose followed-ids
include the subject. -/
def c6net : FollowerNetwork := ⟨"s", 3, [("s", 1)]⟩

/-- Claim C6 as frozen is false on the code: evaluating the `mutual_followings`
property mutates the aggregator — its `followings_counter` access pops the subject id
from the stored counter. -/
theorem claim_C6_cex :
    (c6net.mutual_followings).1._followings_counter ≠ c6net._followings_counter := by
  decide

/-- Claim C6 (amended): evaluating `mutual_followings` changes stored aggregator state
at most by popping the subject id from the counter (subject id, threshold and all other
entries untouched), and it is idempotent: a second consecutive evaluation returns the
identical mapping and leaves the state unchanged, so two consecutive calls with no
intervening record yield identical results. -/
theorem claim_C6 (fn : FollowerNetwork) :
    (fn.mutual_followings).1.streamer_id = fn.streamer_id ∧
    (fn.mutual_followings).1.min_mutual = fn.min_mutual ∧
    (fn.mutual_followings).1._followings_counter =
      counterPop fn._followings_counter fn.streamer_id ∧
    ((fn.mutual_followings).1.mutual_followings).2 = (fn.mutual_followings).2 ∧
    ((fn.mutual_followings).1.mutual_followings).1 = (fn.mutual_followings).1 := by
  obtain ⟨s, m, c⟩ := fn
  refine ⟨rfl, rfl, rfl, ?_, ?_⟩
  · show (counterPop (counterPop c s) s).filter (fun q => decide (m ≤ q.2)) =
      (counterPop c s).filter (fun q => decide (m ≤ q.2))
    rw [counterPop_counterPop]
  · show (⟨s, m, counterPop (counterPop c s) s⟩ : FollowerNetwork) =
      ⟨s, m, counterPop c s⟩
    rw [counterPop_counterPop]

theorem flush_of_all_released (p : FollowNetPipe)
    (h : ∀ uid ∈ mutualKeys p, uid ∈ p.batch_history) :
    (p.new_candidate_batches true).1 = [] ∧
    (p.new_candidate_batches true).2.batch_history = p.batch_history := by
  have hu : p.unreleased = [] := by
    rw [unreleased_eq, List.filter_eq_nil_iff]
    intro a ha
    simp [h a ha]
  constructor
  · rw [ncb_fst, batchify_true, hu]
    rfl
  · rw [ncb_true_history, hu]
    simp

/-- Claim C7: on a state where every qualifying candidate is already released, a
flush-release call returns the empty list of chunks and leaves the released set
unchanged; in particular a second flush right after a flush returns the empty list. -/
theorem claim_C7 :
    (∀ p : FollowNetPipe, (∀ uid ∈ mutualKeys p, uid ∈ p.batch_history) →
      (p.new_candidate_batches true).1 = [] ∧
      (p.new_candidate_batches true).2.batch_history = p.batch_history) ∧
    (∀ p : FollowNetPipe,
      (((p.new_candidate_batches true).2).new_candidate_batches true).1 = []) := by
  constructor
  · exact flush_of_all_released
  · intro p
    refine (flush_of_all_released _ ?_).1
    intro uid hm
    rw [mutualKeys_ncb] at hm
    rw [ncb_true_history]
    by_cases hh : uid ∈ p.batch_history
    · exact Finset.mem_union_left _ hh
    · refine Finset.mem_union_right _ (List.mem_toFinset.mpr ?_)
      rw [unreleased_eq]
      exact List.mem_filter.mpr ⟨hm, by simpa using hh⟩

theorem claim_C7_witness :
    ((pipe0 "s" 3 150).new_candidate_batches true).1 = [] :=
  (claim_C7.1 (pipe0 "s" 3 150) (by decide)).1

/-- Claim C8: a falsy (empty / failed-fetch) report is neither accepted nor rejected —
both counters and all observed counts are unchanged — and the ingest call still returns
exactly the streaming-release result computed on the unchanged state. -/
theorem claim_C8 (p : FollowNetPipe) :
    p.update_followings none false = p.new_candidate_batches false ∧
    (p.update_followings none false).2.num_collected = p.num_collected ∧
    (p.update_followings none false).2.num_skipped = p.num_skipped ∧
    (∀ uid, observedCnt (p.update_followings none false).2 uid = observedCnt p uid) := by
  refine ⟨rfl, rfl, rfl, ?_⟩
  intro uid
  rw [uf_eq_none, observedCnt_ncb]

/-- Claim C9: ingesting the same multiset of reports in two different orders from a
fresh pipeline yields the same observed counts, the same `mutual_followings` key set,
and the same released set after the final flush (chunk grouping aside). -/
theorem claim_C9 (sid : String) (mm maxf : Nat) (rs1 rs2 : List (Option FollowingReply))
    (hperm : List.Perm rs1 rs2) :
    (∀ uid, observedCnt (foldIngest (pipe0 sid mm maxf) rs1) uid =
        observedCnt (foldIngest (pipe0 sid mm maxf) rs2) uid) ∧
    mutualFinset (foldIngest (pipe0 sid mm maxf) rs1) =
      mutualFinset (foldIngest (pipe0 sid mm maxf) rs2) ∧
    ((foldIngest (pipe0 sid mm maxf) rs1).new_candidate_batches true).2.batch_history =
      ((foldIngest (pipe0 sid mm maxf) rs2).new_candidate_batches true).2.batch_history := by
  have hwf0 : CounterWF (pipe0 sid mm maxf).folnet._followings_counter :=
    ⟨List.nodup_nil, fun q hq => absurd hq (List.not_mem_nil q)⟩
  have hobs : ∀ uid, observedCnt (foldIngest (pipe0 sid mm maxf) rs1) uid =
      observedCnt (foldIngest (pipe0 sid mm maxf) rs2) uid := by
    intro uid
    by_cases huid : uid = sid
    · have h1 := observedCnt_streamer (foldIngest (pipe0 sid mm maxf) rs1)
      have h2 := observedCnt_streamer (foldIngest (pipe0 sid mm maxf) rs2)
      rw [foldIngest_streamer] at h1 h2
      rw [huid]
      rw [show (pipe0 sid mm maxf).folnet.streamer_id = sid from rfl] at h1 h2
      rw [h1, h2]
    · rw [observedCnt_foldIngest rs1 _ uid huid, observedCnt_foldIngest rs2 _ uid huid]
      have := (hperm.map (fun r => contrib (pipe0 sid mm maxf).max_followings r uid)).sum_eq
      rw [this]
  refine ⟨hobs, ?_, ?_⟩
  · have hwf1 := counterWF_foldIngest rs1 _ hwf0
    have hwf2 := counterWF_foldIngest rs2 _ hwf0
    ext x
    rw [mutualFinset, mutualFinset, List.mem_toFinset, List.mem_toFinset,
      mem_mutualKeys_obs _ hwf1, mem_mutualKeys_obs _ hwf2, hobs x,
      foldIngest_min_mutual, foldIngest_min_mutual]
  · rw [flush_history _ (history_foldIngest rs1 _ hwf0 (Finset.empty_subset _)),
      flush_history _ (history_foldIngest rs2 _ hwf0 (Finset.empty_subset _))]
    have hwf1 := counterWF_foldIngest rs1 _ hwf0
    have hwf2 := counterWF_foldIngest rs2 _ hwf0
    ext x
    rw [mutualFinset, mutualFinset, List.mem_toFinset, List.mem_toFinset,
      mem_mutualKeys_obs _ hwf1, mem_mutualKeys_obs _ hwf2, hobs x,
      foldIngest_min_mutual, foldIngest_min_mutual]

theorem claim_C9_witness :
    mutualFinset (foldIngest (pipe0 "s" 1 150) [some ⟨1, [⟨"x"⟩]⟩, none]) =
      mutualFinset (foldIngest (pipe0 "s" 1 150) [none, some ⟨1, [⟨"x"⟩]⟩]) :=
  (claim_C9 "s" 1 150 [some ⟨1, [⟨"x"⟩]⟩, none] [none, some ⟨1, [⟨"x"⟩]⟩]
    (by decide)).2.1

theorem claim_C1_witness :
    "s" ∉ ((foldIngest (pipe0 "s" 3 150)
        [some ⟨1, [⟨"s"⟩]⟩]).folnet.followings_counter).2.map Prod.fst :=
  (claim_C1 "s" 3 150 [some ⟨1, [⟨"s"⟩]⟩]).1

theorem claim_C6_witness :
    (c6net.mutual_followings).1._followings_counter =
      counterPop c6net._followings_counter c6net.streamer_id :=
  (claim_C6 c6net).2.2.1

theorem claim_C8_witness :
    (pipe0 "s" 3 150).update_followings none false =
      (pipe0 "s" 3 150).new_candidate_batches false :=
  (claim_C8 (pipe0 "s" 3 150)).1
